import Mathlib

/-!
Verification of the resumable subscription-transfer engine
(`youtube-subscriptions-transfer`, Go).

The embedded code is the current `main` variant: the data type
`ChannelImportStatus`, the checkpoint writer `writeStatusesToFile`,
the load-or-build branch, and the per-item apply loop with its
error classification by string suffix
(`subscriptionDuplicate` / `quotaExceeded`).

The OAuth/token plumbing (`getClient`, `getService`, …) is an external
collaborator per the spec and is not embedded; the destination client
is modelled as a state-threading insert function, the source
enumerator and file system as parameters of the run environment.
-/

/-- Immutable identity of a subscribable channel: the fields of the
`*youtube.Subscription` actually read by the engine
(`Snippet.ResourceId.ChannelId` for the insert payload,
`Snippet.Title` for display). -/
structure ChannelRef where
  channelId : String
  title : String
deriving DecidableEq

/-- Go: `type ChannelImportStatus struct { Channel *youtube.Subscription; Imported bool }`. -/
structure ChannelImportStatus where
  channel : ChannelRef
  imported : Bool
deriving DecidableEq

/-- Result of `targetService.Subscriptions.Insert(...).Do()`:
`err == nil`, or an error rendered to its message string. -/
inductive InsertResult where
  | ok
  | err (msg : String)
deriving DecidableEq

/-- Go `strings.HasSuffix`:
`len(s) >= len(suffix) && s[len(s)-len(suffix):] == suffix`
(our messages are ASCII, so byte and character counts agree). -/
def hasSuffix (s suffix : String) : Bool :=
  decide (suffix.length ≤ s.length) && (s.drop (s.length - suffix.length) == suffix)

/-- Run outcome of the apply loop: the loop either reaches the end of
the slice or executes `break` in the `quotaExceeded` branch. -/
inductive Outcome where
  | Completed
  | HaltedOnQuota
deriving DecidableEq

/-- Everything one run of the apply loop produces: the mutated
statuses slice, the outcome, the destination-client state after the
run, the ordered insert calls issued, and the printed lines. -/
structure RunResult (σ : Type) where
  statuses : List ChannelImportStatus
  outcome : Outcome
  dest : σ
  calls : List ChannelRef
  log : List String
deriving DecidableEq

/-- Go: `fmt.Printf("Attempting to add channel #%v: %s: ", index, channel.Snippet.Title)`. -/
def attemptMsg (index : Nat) (title : String) : String :=
  "Attempting to add channel #" ++ toString index ++ ": " ++ title ++ ": "

def alreadyImportedMsg : String := "already imported, skipping"

def subscribedMsg : String := "successfully subscribed to channel"

def duplicateMsg (m : String) : String :=
  "previously subscribed, marking as imported (" ++ m ++ ")"

def quotaMsg : String := "quota exceeded, stopping for today"

def otherErrMsg (m : String) : String := "stopping with error: " ++ m

/-- Sets `Imported = true` on one slice entry (`channelStatuses[index].Imported = true`). -/
def markImported (it : ChannelImportStatus) : ChannelImportStatus :=
  { it with imported := true }

/-- The apply loop of `main` (lines 203-241), from the item at slice
position `index` on.  For each item: skip it when already imported;
otherwise issue the insert and classify the error by suffix —
`subscriptionDuplicate` marks the item imported, `quotaExceeded`
executes `break` (remaining items untouched), anything else leaves
the item pending and continues.  The destination client is a
state-threading function `ins`. -/
def applyFrom {σ : Type} (ins : σ → ChannelRef → σ × InsertResult) (d : σ) (index : Nat) :
    List ChannelImportStatus → RunResult σ
  | [] => ⟨[], Outcome.Completed, d, [], []⟩
  | item :: rest =>
    if item.imported then
      let r := applyFrom ins d (index + 1) rest
      ⟨item :: r.statuses, r.outcome, r.dest, r.calls,
        attemptMsg index item.channel.title :: alreadyImportedMsg :: r.log⟩
    else
      match ins d item.channel with
      | (d1, InsertResult.ok) =>
        let r := applyFrom ins d1 (index + 1) rest
        ⟨markImported item :: r.statuses, r.outcome, r.dest, item.channel :: r.calls,
          attemptMsg index item.channel.title :: subscribedMsg :: r.log⟩
      | (d1, InsertResult.err m) =>
        if hasSuffix m "subscriptionDuplicate" then
          let r := applyFrom ins d1 (index + 1) rest
          ⟨markImported item :: r.statuses, r.outcome, r.dest, item.channel :: r.calls,
            attemptMsg index item.channel.title :: duplicateMsg m :: r.log⟩
        else if hasSuffix m "quotaExceeded" then
          ⟨item :: rest, Outcome.HaltedOnQuota, d1, [item.channel],
            [attemptMsg index item.channel.title, quotaMsg]⟩
        else
          let r := applyFrom ins d1 (index + 1) rest
          ⟨item :: r.statuses, r.outcome, r.dest, item.channel :: r.calls,
            attemptMsg index item.channel.title :: otherErrMsg m :: r.log⟩

/-- The whole apply loop, from index 0. -/
def applyEngine {σ : Type} (ins : σ → ChannelRef → σ × InsertResult) (d : σ)
    (statuses : List ChannelImportStatus) : RunResult σ :=
  applyFrom ins d 0 statuses

/-!
## Checkpoint codec

`writeStatusesToFile` serializes `[]ChannelImportStatus` with
`encoding/gob`; the load branch of `main` decodes the same stream.
The gob codec itself is the Go standard library, outside this
repository, so its stream is modelled abstractly: a typed token
stream carrying, per the spec (§6), "identifier, title, status per
item" in order, length-prefixed, with any other shape rejected. -/

/-- One typed token of the modelled checkpoint stream. -/
inductive Token where
  | len (n : Nat)
  | str (s : String)
  | flag (b : Bool)
deriving DecidableEq

/-- Modelled from the spec: serialization of one item — the embedded
channel identifier, display title, and import status, in order. -/
def encodeItem (it : ChannelImportStatus) : List Token :=
  [Token.str it.channel.channelId, Token.str it.channel.title, Token.flag it.imported]

/-- Modelled from the spec: serialization of a whole TransferState —
the item count followed by each item in sequence order. -/
def encodeState (l : List ChannelImportStatus) : List Token :=
  Token.len l.length :: (l.map encodeItem).flatten

/-- Decodes exactly `n` items, returning them with the unread rest of
the stream; any token of the wrong shape fails the decode. -/
def decodeItems : Nat → List Token → Option (List ChannelImportStatus × List Token)
  | 0, ts => some ([], ts)
  | n + 1, Token.str cid :: Token.str title :: Token.flag b :: ts =>
    match decodeItems n ts with
    | some (items, rest) => some (⟨⟨cid, title⟩, b⟩ :: items, rest)
    | none => none
  | _ + 1, _ => none

/-- Modelled from the spec: the checkpoint decoder.  Rejects a stream
that does not start with a count, fails mid-item, or carries trailing
garbage. -/
def decodeState (ts : List Token) : Option (List ChannelImportStatus) :=
  match ts with
  | Token.len n :: rest =>
    match decodeItems n rest with
    | some (items, []) => some items
    | _ => none
  | _ => none

/-!
## Run driver

`main` from line 173 on: the load-or-build branch, the apply loop,
and the final checkpoint write.  The oauth setup (lines 161-171) is
an excluded external collaborator.  The environment injects what the
world answers: the checkpoint file content (`none` = `os.Open`
fails, i.e. no checkpoint), the source enumeration result, the
destination insert behavior, and whether each of the two
`writeStatusesToFile` calls fails (modelled at its first failure
point, `os.Create`). -/

/-- Externally visible effect of one run, in order. -/
inductive Effect where
  | enumerateSource
  | insertCall (c : ChannelRef)
  | saveFile (content : List Token)
deriving DecidableEq

/-- The world a single invocation of `main` runs against. -/
structure Env (σ : Type) where
  checkpoint : Option (List Token)
  subs : Except String (List ChannelRef)
  insert : σ → ChannelRef → σ × InsertResult
  dest0 : σ
  firstSaveErr : Option String
  finalSaveErr : Option String

/-- What a `writeStatusesToFile` call did to the world. -/
structure SaveOut where
  fs : Option (List Token)
  log : List String
  trace : List Effect
  errReturned : Option String

/-- Go `writeStatusesToFile` (lines 141-158): creates
`importStatus.gob` and gob-encodes the slice into it, returning any
error to the caller.  An injected failure leaves the checkpoint
unchanged and is handed back as the returned error. -/
def writeStatusesToFile (fail : Option String) (fs : Option (List Token))
    (st : List ChannelImportStatus) : SaveOut :=
  match fail with
  | some e => ⟨fs, [], [], some e⟩
  | none =>
    ⟨some (encodeState st), ["Encoding channelStatuses to file"],
      [Effect.saveFile (encodeState st)], none⟩

/-- Everything `main` left behind when it reached its final line. -/
structure Finished (σ : Type) where
  statuses : List ChannelImportStatus
  outcome : Outcome
  dest : σ
  fs : Option (List Token)
  trace : List Effect
  log : List String
  droppedSaveErr : Option String

/-- `main` either aborts (`log.Fatalf` / `panic`) or runs to the end. -/
inductive MainResult (σ : Type) where
  | fatal (msg : String)
  | normal (r : Finished σ)

/-- The tail of `main`: run the apply loop over the plan, then the
final `writeStatusesToFile(channelStatuses)` (line 243) whose
returned error `main` discards — recorded as `droppedSaveErr`, with
no log line and no abort. -/
def finishRun {σ : Type} (env : Env σ) (fs : Option (List Token))
    (statuses : List ChannelImportStatus) (log0 : List String) (tr0 : List Effect) :
    MainResult σ :=
  let r := applyEngine env.insert env.dest0 statuses
  let s := writeStatusesToFile env.finalSaveErr fs r.statuses
  MainResult.normal
    { statuses := r.statuses
      outcome := r.outcome
      dest := r.dest
      fs := s.fs
      trace := tr0 ++ r.calls.map Effect.insertCall ++ s.trace
      log := log0
        ++ ("Importing up to " ++ toString statuses.length ++ " unimported channels 1 by 1")
          :: r.log ++ s.log
      droppedSaveErr := s.errReturned }

/-- `main`, lines 173-243.  When the checkpoint file opens, its
content is gob-decoded with the error ignored (line 180:
`decoder.Decode(&channelStatuses)`), so a failed decode leaves
`channelStatuses` at its initial empty value and the run proceeds.
When the file is absent, the source is enumerated once, a fresh
all-pending plan is built and saved — `log.Fatalf` on enumeration
failure, `panic` on save failure. -/
def mainModel {σ : Type} (env : Env σ) : MainResult σ :=
  match env.checkpoint with
  | some content =>
    let statuses := (decodeState content).getD []
    finishRun env (some content) statuses
      ["Encoded file exists, decoding into channelStatuses"] []
  | none =>
    match env.subs with
    | Except.error e => MainResult.fatal ("Unable to list source channels: " ++ e)
    | Except.ok chans =>
      let statuses := chans.map (fun c => ChannelImportStatus.mk c false)
      let s := writeStatusesToFile env.firstSaveErr none statuses
      match s.errReturned with
      | some e => MainResult.fatal ("panic: " ++ e)
      | none =>
        finishRun env s.fs statuses
          ("Encoded file doesnt exist, fetching subscriptions"
            :: "Importing into array" :: s.log)
          (Effect.enumerateSource :: s.trace)

example :
    (applyEngine (σ := Nat) (fun n _ => (n + 1, InsertResult.ok)) 0
      [⟨⟨"UC_a", "A"⟩, true⟩, ⟨⟨"UC_b", "B"⟩, false⟩]).statuses
      = [⟨⟨"UC_a", "A"⟩, true⟩, ⟨⟨"UC_b", "B"⟩, true⟩] := by decide

example : hasSuffix "googleapi: Error 403: quotaExceeded" "quotaExceeded" = true := by decide

example : hasSuffix "googleapi: Error 403: quotaExceeded" "subscriptionDuplicate" = false := by
  decide

/-!
## Fixed concrete values used by counterexamples and witnesses
-/

def chanA : ChannelRef := ⟨"UC_chanA", "Channel A"⟩

def chanB : ChannelRef := ⟨"UC_chanB", "Channel B"⟩

def chanC : ChannelRef := ⟨"UC_chanC", "Channel C"⟩

/-- An error message carrying the duplicate signature. -/
def dupErrStr : String := "googleapi: Error 400: subscriptionDuplicate"

/-- An error message carrying the quota signature. -/
def quotaErrStr : String := "googleapi: Error 403: quotaExceeded"

/-- An error message carrying neither signature. -/
def otherErrStr : String := "googleapi: Error 500: backendError"

theorem dupErrStr_is_dup : hasSuffix dupErrStr "subscriptionDuplicate" = true := by decide

theorem quotaErrStr_not_dup : hasSuffix quotaErrStr "subscriptionDuplicate" = false := by decide

theorem quotaErrStr_is_quota : hasSuffix quotaErrStr "quotaExceeded" = true := by decide

/-!
## Codec round-trip
-/

theorem decodeItems_encode (l : List ChannelImportStatus) (ts : List Token) :
    decodeItems l.length ((l.map encodeItem).flatten ++ ts) = some (l, ts) := by
  induction l with
  | nil => rfl
  | cons it rest ih =>
    simp only [List.map_cons, List.flatten_cons, List.length_cons, encodeItem,
      List.append_eq, List.cons_append, List.append_assoc, List.nil_append,
      decodeItems, ih]

theorem decode_encode (l : List ChannelImportStatus) :
    decodeState (encodeState l) = some l := by
  have h := decodeItems_encode l []
  simp only [List.append_nil] at h
  simp only [decodeState, encodeState, h]

/-- One save/load cycle against the checkpoint file. -/
def saveLoad (o : Option (List ChannelImportStatus)) : Option (List ChannelImportStatus) :=
  o.bind (fun s => decodeState (encodeState s))

/-- C8: saving any TransferState to the checkpoint and loading it back
yields an equal TransferState (same order, identifiers and statuses),
and this survives any number of repeated load/save cycles. -/
theorem checkpoint_round_trip (s : List ChannelImportStatus) (n : Nat) :
    decodeState (encodeState s) = some s ∧ saveLoad^[n] (some s) = some s := by
  refine ⟨decode_encode s, ?_⟩
  induction n with
  | zero => rfl
  | succ k ih =>
    rw [Function.iterate_succ_apply]
    have h1 : saveLoad (some s) = some s := by
      simp [saveLoad, decode_encode]
    rw [h1, ih]

/-!
## Monotonicity of `Imported`
-/

/-- An item whose status is `Imported` before any point of the loop is
returned untouched: the loop body hits `continue` before the insert
call, and no branch writes `false` into `Imported`. -/
theorem applyFrom_preserves_imported {σ : Type} (ins : σ → ChannelRef → σ × InsertResult)
    (l : List ChannelImportStatus) (d : σ) (idx i : Nat) (it : ChannelImportStatus)
    (hget : l[i]? = some it) (himp : it.imported = true) :
    (applyFrom ins d idx l).statuses[i]? = some it := by
  induction l generalizing d idx i with
  | nil => simp at hget
  | cons item rest ih =>
    by_cases him : item.imported = true
    · cases i with
      | zero =>
        simp only [List.getElem?_cons_zero, Option.some.injEq] at hget
        subst hget
        simp [applyFrom, him]
      | succ j =>
        simp only [List.getElem?_cons_succ] at hget
        simp only [applyFrom, him, if_true]
        simpa using ih d (idx + 1) j hget
    · cases i with
      | zero =>
        simp only [List.getElem?_cons_zero, Option.some.injEq] at hget
        subst hget
        exact absurd himp him
      | succ j =>
        simp only [List.getElem?_cons_succ] at hget
        rcases hres : ins d item.channel with ⟨d1, res⟩
        cases res with
        | ok =>
          simp only [applyFrom, him, if_false, hres]
          simpa using ih d1 (idx + 1) j hget
        | err m =>
          by_cases hdup : hasSuffix m "subscriptionDuplicate" = true
          · simp only [applyFrom, him, if_false, hres, hdup, if_true]
            simpa using ih d1 (idx + 1) j hget
          · by_cases hq : hasSuffix m "quotaExceeded" = true
            · simp only [applyFrom, him, if_false, hres, hdup, hq, if_true]
              simpa using hget
            · simp only [applyFrom, him, if_false, hres, hdup, hq]
              simpa using ih d1 (idx + 1) j hget

/-- A sequence of engine runs, each with its own destination client
and client start state, folded over one statuses list. -/
def runSequence {σ : Type} (runs : List ((σ → ChannelRef → σ × InsertResult) × σ))
    (l : List ChannelImportStatus) : List ChannelImportStatus :=
  runs.foldl (fun acc r => (applyEngine r.1 r.2 acc).statuses) l

/-- C2: status transitions only flow Pending to Imported.  At every
point of the apply loop an `Imported` item passes through unchanged,
and no sequence of runs ever sets an `Imported` item back to
`Pending`. -/
theorem imported_never_regresses {σ : Type} :
    (∀ (ins : σ → ChannelRef → σ × InsertResult) (l : List ChannelImportStatus)
        (d : σ) (idx i : Nat) (it : ChannelImportStatus),
        l[i]? = some it → it.imported = true →
        (applyFrom ins d idx l).statuses[i]? = some it)
    ∧ (∀ (runs : List ((σ → ChannelRef → σ × InsertResult) × σ))
        (l : List ChannelImportStatus) (i : Nat) (it : ChannelImportStatus),
        l[i]? = some it → it.imported = true →
        (runSequence runs l)[i]? = some it) := by
  constructor
  · intro ins l d idx i it hget himp
    exact applyFrom_preserves_imported ins l d idx i it hget himp
  · intro runs
    induction runs with
    | nil => intro l i it hget _; simpa [runSequence] using hget
    | cons r rs ih =>
      intro l i it hget himp
      have h1 := applyFrom_preserves_imported r.1 l r.2 0 i it hget himp
      simpa [runSequence] using ih (applyEngine r.1 r.2 l).statuses i it h1 himp

/-- Closed instance of C2: a two-run sequence over a one-item imported
state keeps the item imported. -/
theorem imported_never_regresses_witness :
    (runSequence (σ := Nat)
        [(fun n _ => (n + 1, InsertResult.ok), 0),
         (fun n _ => (n, InsertResult.err quotaErrStr), 0)]
        [⟨chanA, true⟩])[0]? = some ⟨chanA, true⟩ :=
  (imported_never_regresses (σ := Nat)).2
    [(fun n _ => (n + 1, InsertResult.ok), 0),
     (fun n _ => (n, InsertResult.err quotaErrStr), 0)]
    [⟨chanA, true⟩] 0 ⟨chanA, true⟩ rfl rfl

/-!
## Per-item classification behavior
-/

/-- C5: an insert failure whose message carries the duplicate
signature is treated as success — the pending item is marked
`Imported` and the loop advances to the next item (the rest of the
run is exactly the run over the remaining items). -/
theorem duplicate_treated_as_success {σ : Type} (ins : σ → ChannelRef → σ × InsertResult)
    (d d1 : σ) (idx : Nat) (item : ChannelImportStatus) (rest : List ChannelImportStatus)
    (m : String) (hp : item.imported = false)
    (hins : ins d item.channel = (d1, InsertResult.err m))
    (hdup : hasSuffix m "subscriptionDuplicate" = true) :
    (applyFrom ins d idx (item :: rest)).statuses
        = markImported item :: (applyFrom ins d1 (idx + 1) rest).statuses
    ∧ (applyFrom ins d idx (item :: rest)).outcome
        = (applyFrom ins d1 (idx + 1) rest).outcome
    ∧ (applyFrom ins d idx (item :: rest)).log
        = attemptMsg idx item.channel.title :: duplicateMsg m
            :: (applyFrom ins d1 (idx + 1) rest).log := by
  simp [applyFrom, hp, hins, hdup]

/-- A client that answers every insert with the duplicate signature. -/
def dupOnlyClient : Nat → ChannelRef → Nat × InsertResult :=
  fun n _ => (n + 1, InsertResult.err dupErrStr)

theorem duplicate_treated_as_success_witness :
    (applyFrom dupOnlyClient 0 0 [⟨chanB, false⟩]).statuses
        = markImported ⟨chanB, false⟩ :: (applyFrom dupOnlyClient 1 1 []).statuses
    ∧ (applyFrom dupOnlyClient 0 0 [⟨chanB, false⟩]).outcome
        = (applyFrom dupOnlyClient 1 1 []).outcome
    ∧ (applyFrom dupOnlyClient 0 0 [⟨chanB, false⟩]).log
        = attemptMsg 0 (ChannelImportStatus.mk chanB false).channel.title
            :: duplicateMsg dupErrStr :: (applyFrom dupOnlyClient 1 1 []).log :=
  duplicate_treated_as_success dupOnlyClient 0 1 0 ⟨chanB, false⟩ [] dupErrStr rfl rfl
    (by decide)

/-- C6: an insert failure carrying neither the duplicate nor the quota
signature leaves the item `Pending`, logs the error line, and the loop
advances to the remaining items with the outcome of that remainder —
the run is not halted.  Moreover an insert error can never make the
whole process abort: whenever the checkpoint loads, `main` runs to
its final line regardless of the destination client's answers. -/
theorem other_error_leaves_pending {σ : Type} (ins : σ → ChannelRef → σ × InsertResult)
    (d d1 : σ) (idx : Nat) (item : ChannelImportStatus) (rest : List ChannelImportStatus)
    (m : String) (hp : item.imported = false)
    (hins : ins d item.channel = (d1, InsertResult.err m))
    (hdup : hasSuffix m "subscriptionDuplicate" = false)
    (hq : hasSuffix m "quotaExceeded" = false) :
    (applyFrom ins d idx (item :: rest)).statuses
        = item :: (applyFrom ins d1 (idx + 1) rest).statuses
    ∧ (applyFrom ins d idx (item :: rest)).outcome
        = (applyFrom ins d1 (idx + 1) rest).outcome
    ∧ (applyFrom ins d idx (item :: rest)).log
        = attemptMsg idx item.channel.title :: otherErrMsg m
            :: (applyFrom ins d1 (idx + 1) rest).log
    ∧ (∀ (env : Env σ) (s0 : List ChannelImportStatus),
        env.checkpoint = some (encodeState s0) →
        ∃ r : Finished σ, mainModel env = MainResult.normal r) := by
  refine ⟨?_, ?_, ?_, ?_⟩
  · simp [applyFrom, hp, hins, hdup, hq]
  · simp [applyFrom, hp, hins, hdup, hq]
  · simp [applyFrom, hp, hins, hdup, hq]
  · intro env s0 hck
    simp only [mainModel, hck, finishRun]
    exact ⟨_, rfl⟩

/-- A client that answers every insert with an unclassified error. -/
def otherOnlyClient : Nat → ChannelRef → Nat × InsertResult :=
  fun n _ => (n + 1, InsertResult.err otherErrStr)

theorem other_error_leaves_pending_witness :
    ((applyFrom otherOnlyClient 0 0 [⟨chanB, false⟩]).statuses
        = (⟨chanB, false⟩ : ChannelImportStatus) :: (applyFrom otherOnlyClient 1 1 []).statuses
    ∧ (applyFrom otherOnlyClient 0 0 [⟨chanB, false⟩]).outcome
        = (applyFrom otherOnlyClient 1 1 []).outcome
    ∧ (applyFrom otherOnlyClient 0 0 [⟨chanB, false⟩]).log
        = attemptMsg 0 (ChannelImportStatus.mk chanB false).channel.title
            :: otherErrMsg otherErrStr :: (applyFrom otherOnlyClient 1 1 []).log
    ∧ (∀ (env : Env Nat) (s0 : List ChannelImportStatus),
        env.checkpoint = some (encodeState s0) →
        ∃ r : Finished Nat, mainModel env = MainResult.normal r)) :=
  other_error_leaves_pending otherOnlyClient 0 1 0 ⟨chanB, false⟩ [] otherErrStr rfl rfl
    (by decide) (by decide)

/-!
## Quota halt
-/

/-- A destination client that answers the first `k` inserts with
success and every later one with the quota-exhausted error; its state
counts the insert calls made so far. -/
def quotaClient (k : Nat) : Nat → ChannelRef → Nat × InsertResult :=
  fun n _ => (n + 1, if n < k then InsertResult.ok else InsertResult.err quotaErrStr)

/-- Loop-level quota halt: over an all-pending suffix, with `d` calls
already spent of a budget of `k`, the loop imports the next `k - d`
items, then hits the quota error and breaks with everything after
untouched. -/
theorem applyFrom_quota (k : Nat) :
    ∀ (l : List ChannelImportStatus) (d idx : Nat),
      (∀ it ∈ l, it.imported = false) → d ≤ k → k - d < l.length →
      (applyFrom (quotaClient k) d idx l).statuses
          = (l.take (k - d)).map markImported ++ l.drop (k - d)
      ∧ (applyFrom (quotaClient k) d idx l).outcome = Outcome.HaltedOnQuota := by
  intro l
  induction l with
  | nil => intro d idx _ _ hlen; simp at hlen
  | cons item rest ih =>
    intro d idx hp hdk hlen
    have hip : item.imported = false := hp item (List.mem_cons_self item rest)
    rcases Nat.lt_or_ge d k with hdlt | hge
    · have hcall : quotaClient k d item.channel = (d + 1, InsertResult.ok) := by
        simp [quotaClient, hdlt]
      have hsub : k - d = (k - (d + 1)) + 1 := by omega
      have hrest := ih (d + 1) (idx + 1) (fun it hit => hp it (List.mem_cons_of_mem item hit))
        (by omega) (by simp at hlen; omega)
      constructor
      · simp only [applyFrom, hip, Bool.false_eq_true, if_false, hcall, hsub,
          List.take_succ_cons, List.drop_succ_cons, List.map_cons, List.cons_append]
        rw [hrest.1]
      · simp only [applyFrom, hip, Bool.false_eq_true, if_false, hcall]
        exact hrest.2
    · have hdk' : d = k := by omega
      have hcall : quotaClient k d item.channel = (d + 1, InsertResult.err quotaErrStr) := by
        simp [quotaClient, hdk']
      have hz : k - d = 0 := by omega
      constructor
      · simp [applyFrom, hip, hcall, quotaErrStr_not_dup, quotaErrStr_is_quota, hz]
      · simp [applyFrom, hip, hcall, quotaErrStr_not_dup, quotaErrStr_is_quota]

/-- C1: with a plan of `N` all-pending items and a destination that
succeeds on items `1..k` and reports quota exhaustion on item `k+1`,
one run of `main` marks items `1..k` `Imported`, leaves `k+1..N`
`Pending`, halts on quota, and writes the final TransferState back to
the checkpoint before returning. -/
theorem quota_halt_preserves_progress (plan : List ChannelImportStatus) (k : Nat)
    (subs : Except String (List ChannelRef)) (fe : Option String)
    (hp : ∀ it ∈ plan, it.imported = false) (hk : k < plan.length) :
    ∃ r : Finished Nat,
      mainModel { checkpoint := some (encodeState plan), subs := subs,
                  insert := quotaClient k, dest0 := 0,
                  firstSaveErr := fe, finalSaveErr := none } = MainResult.normal r
      ∧ r.statuses = (plan.take k).map markImported ++ plan.drop k
      ∧ r.outcome = Outcome.HaltedOnQuota
      ∧ r.fs = some (encodeState r.statuses) := by
  obtain ⟨hs, ho⟩ :=
    applyFrom_quota k plan 0 0 hp (Nat.zero_le k) (by simpa using hk)
  refine ⟨_, rfl, ?_, ?_, ?_⟩
  · simpa [applyEngine, decode_encode] using hs
  · simpa [applyEngine, decode_encode] using ho
  · rfl

theorem quota_halt_preserves_progress_witness :
    ∃ r : Finished Nat,
      mainModel { checkpoint := some (encodeState [⟨chanA, false⟩, ⟨chanB, false⟩]),
                  subs := Except.ok [], insert := quotaClient 1, dest0 := 0,
                  firstSaveErr := none, finalSaveErr := none } = MainResult.normal r
      ∧ r.statuses = (([⟨chanA, false⟩, ⟨chanB, false⟩] : List ChannelImportStatus).take 1).map
            markImported ++ ([⟨chanA, false⟩, ⟨chanB, false⟩] : List ChannelImportStatus).drop 1
      ∧ r.outcome = Outcome.HaltedOnQuota
      ∧ r.fs = some (encodeState r.statuses) :=
  quota_halt_preserves_progress [⟨chanA, false⟩, ⟨chanB, false⟩] 1 (Except.ok []) none
    (by decide) (by decide)

/-!
## Fresh run
-/

theorem count_enum_in_tail (cs : List ChannelRef) (fe : Option String)
    (fs : Option (List Token)) (st : List ChannelImportStatus) :
    (cs.map Effect.insertCall ++ (writeStatusesToFile fe fs st).trace).count
        Effect.enumerateSource = 0 := by
  rw [List.count_eq_zero]
  intro hmem
  rcases List.mem_append.1 hmem with h | h
  · rcases List.mem_map.1 h with ⟨c, _, hc⟩
    exact Effect.noConfusion hc
  · cases fe with
    | some e => simp [writeStatusesToFile] at h
    | none => simp [writeStatusesToFile] at h

/-- C7: on a run with no checkpoint, `main` enumerates the source
exactly once, builds the plan from the enumerated channels in order
with every item `Pending`, and persists that plan to the checkpoint
file before issuing any destination insert (the save is the second
effect, ahead of every insert call of the run). -/
theorem fresh_run_snapshot {σ : Type} (chans : List ChannelRef)
    (ins : σ → ChannelRef → σ × InsertResult) (d0 : σ) (fe : Option String) :
    ∃ (r : Finished σ) (tail : List Effect),
      mainModel { checkpoint := none, subs := Except.ok chans, insert := ins,
                  dest0 := d0, firstSaveErr := none, finalSaveErr := fe }
          = MainResult.normal r
      ∧ r.statuses
          = (applyEngine ins d0 (chans.map (fun c => ChannelImportStatus.mk c false))).statuses
      ∧ r.trace = Effect.enumerateSource
          :: Effect.saveFile (encodeState (chans.map (fun c => ChannelImportStatus.mk c false)))
          :: tail
      ∧ r.trace.count Effect.enumerateSource = 1 := by
  refine ⟨_,
    (applyEngine ins d0 (chans.map (fun c => ChannelImportStatus.mk c false))).calls.map
        Effect.insertCall
      ++ (writeStatusesToFile fe
            (some (encodeState (chans.map (fun c => ChannelImportStatus.mk c false))))
            (applyEngine ins d0 (chans.map (fun c => ChannelImportStatus.mk c false))).statuses).trace,
    rfl, rfl, rfl, ?_⟩
  have h := count_enum_in_tail
    (applyEngine ins d0 (chans.map (fun c => ChannelImportStatus.mk c false))).calls fe
    (some (encodeState (chans.map (fun c => ChannelImportStatus.mk c false))))
    (applyEngine ins d0 (chans.map (fun c => ChannelImportStatus.mk c false))).statuses
  simp [writeStatusesToFile, List.count_cons, List.cons_append, List.append_assoc] at h ⊢
  exact h

/-!
## Ignored-error paths
-/

/-- A checkpoint file content that is present but fails to decode. -/
def malformedContent : List Token := [Token.flag true]

/-- A destination client that always succeeds. -/
def okClient : Nat → ChannelRef → Nat × InsertResult :=
  fun n _ => (n + 1, InsertResult.ok)

/-- C3, what the code actually does: with a present but malformed
checkpoint, `decoder.Decode`'s error is ignored (line 180), so the
run is NOT fatal — it proceeds with the initial empty
`channelStatuses` and its final save overwrites the checkpoint with
the empty state.  This contradicts the spec, which makes a
corrupt-but-present checkpoint a fatal decode error. -/
theorem malformed_checkpoint_not_fatal :
    decodeState malformedContent = none
    ∧ mainModel { checkpoint := some malformedContent, subs := Except.ok [chanA],
                  insert := okClient, dest0 := 0,
                  firstSaveErr := none, finalSaveErr := none }
        = MainResult.normal
            { statuses := [], outcome := Outcome.Completed, dest := 0,
              fs := some (encodeState []),
              trace := [Effect.saveFile (encodeState [])],
              log := ["Encoded file exists, decoding into channelStatuses",
                "Importing up to 0 unimported channels 1 by 1",
                "Encoding channelStatuses to file"],
              droppedSaveErr := none } := by
  constructor
  · rfl
  · rfl

/-- The error message of a failing final save. -/
def diskErrStr : String := "open importStatus.gob: permission denied"

/-- C9, what the code actually does: when the final
`writeStatusesToFile(channelStatuses)` (line 243) fails, its returned
error is discarded — the run still ends normally, no line about the
error is printed, and the checkpoint keeps its stale pre-run content
while the freshly imported progress is lost.  This contradicts the
spec, which requires every failed save to be reported. -/
theorem final_save_error_swallowed :
    ∃ r : Finished Nat,
      mainModel { checkpoint := some (encodeState [⟨chanA, false⟩]), subs := Except.ok [],
                  insert := okClient, dest0 := 0,
                  firstSaveErr := none, finalSaveErr := some diskErrStr }
          = MainResult.normal r
      ∧ r.droppedSaveErr = some diskErrStr
      ∧ diskErrStr ∉ r.log
      ∧ r.statuses = [⟨chanA, true⟩]
      ∧ r.fs = some (encodeState [⟨chanA, false⟩]) := by
  refine ⟨_, rfl, ?_, ?_, ?_, ?_⟩
  · rfl
  · decide
  · decide
  · rfl

/-!
## Idempotent re-run
-/

/-- The destination account modelled as the list of channels it is
subscribed to: inserting an already-held channel reports the
duplicate signature and mutates nothing; inserting a new channel
succeeds and adds it. -/
def dupClient : List ChannelRef → ChannelRef → List ChannelRef × InsertResult :=
  fun d c =>
    if c ∈ d then (d, InsertResult.err dupErrStr) else (c :: d, InsertResult.ok)

/-- Re-run against a destination that already holds every channel of
the plan: the destination is never mutated, the run completes, the
insert calls are exactly the pending items' channels in order, every
imported item passes through untouched with its "already imported"
line, and every pending item comes back imported. -/
theorem applyFrom_dup (D : List ChannelRef) :
    ∀ (s : List ChannelImportStatus) (idx : Nat),
      (∀ it ∈ s, it.channel ∈ D) →
      (applyFrom dupClient D idx s).dest = D
      ∧ (applyFrom dupClient D idx s).outcome = Outcome.Completed
      ∧ (applyFrom dupClient D idx s).calls
          = (s.filter (fun it => it.imported = false)).map (fun it => it.channel)
      ∧ (∀ it ∈ s, it.imported = true →
          alreadyImportedMsg ∈ (applyFrom dupClient D idx s).log)
      ∧ (applyFrom dupClient D idx s).statuses = s.map markImported := by
  intro s
  induction s with
  | nil => intro idx _; simp [applyFrom]
  | cons item rest ih =>
    intro idx hsub
    have hmem : item.channel ∈ D := hsub item (List.mem_cons_self item rest)
    have hrest := ih (idx + 1) (fun it hit => hsub it (List.mem_cons_of_mem item hit))
    by_cases him : item.imported = true
    · refine ⟨?_, ?_, ?_, ?_, ?_⟩
      · simpa [applyFrom, him] using hrest.1
      · simpa [applyFrom, him] using hrest.2.1
      · simpa [applyFrom, him] using hrest.2.2.1
      · intro it hit _
        simp [applyFrom, him]
      · have hmark : markImported item = item := by
          cases item
          simp_all [markImported]
        simp [applyFrom, him, hrest.2.2.2.2, hmark]
    · have himf : item.imported = false := by simpa using him
      have hcall : dupClient D item.channel = (D, InsertResult.err dupErrStr) := by
        simp [dupClient, hmem]
      refine ⟨?_, ?_, ?_, ?_, ?_⟩
      · simpa [applyFrom, him, hcall, dupErrStr_is_dup] using hrest.1
      · simpa [applyFrom, him, hcall, dupErrStr_is_dup] using hrest.2.1
      · simp [applyFrom, him, hcall, dupErrStr_is_dup, hrest.2.2.1, himf]
      · intro it hit himp
        rcases List.mem_cons.1 hit with h | h
        · rw [h] at himp; exact absurd himp him
        · have hin := hrest.2.2.2.1 it h himp
          simp [applyFrom, him, hcall, dupErrStr_is_dup, hin]
      · simp [applyFrom, him, hcall, dupErrStr_is_dup, hrest.2.2.2.2]

/-- C4 as stated is false on the code: with the state
`[A imported, B pending]` and a destination already subscribed to
both channels, the re-run answers B's insert with the duplicate
signature and marks B `Imported` — the `Imported` set grows from
`{A}` to `{A, B}`, so it is not left unchanged. -/
theorem rerun_changes_imported_set :
    (∃ it ∈ ([⟨chanA, true⟩, ⟨chanB, false⟩] : List ChannelImportStatus),
        it.imported = true)
    ∧ (∀ it ∈ ([⟨chanA, true⟩, ⟨chanB, false⟩] : List ChannelImportStatus),
        it.channel ∈ [chanA, chanB])
    ∧ (applyEngine dupClient [chanA, chanB]
          [⟨chanA, true⟩, ⟨chanB, false⟩]).statuses.filter (fun it => it.imported)
        ≠ ([⟨chanA, true⟩, ⟨chanB, false⟩] : List ChannelImportStatus).filter
            (fun it => it.imported) := by
  refine ⟨⟨⟨chanA, true⟩, by decide, rfl⟩, by decide, by decide⟩

/-- C4 amended: re-running the engine over a state with at least one
`Imported` item, against a destination client that reports the
duplicate signature for every already-subscribed channel (and which
already holds every channel of the plan), makes zero net-new
destination mutations, completes, issues insert calls only for the
pending items (none for an `Imported` item, each of which is skipped
with an "already imported" message and passes through unchanged); the
`Imported` set never shrinks, but pending items whose insert reports
the duplicate signature are additionally marked `Imported`, so it may
grow. -/
theorem rerun_idempotent_amended (s : List ChannelImportStatus) (D : List ChannelRef)
    (hsome : ∃ it ∈ s, it.imported = true)
    (hsub : ∀ it ∈ s, it.channel ∈ D) :
    (applyEngine dupClient D s).dest = D
    ∧ (applyEngine dupClient D s).outcome = Outcome.Completed
    ∧ (applyEngine dupClient D s).calls
        = (s.filter (fun it => it.imported = false)).map (fun it => it.channel)
    ∧ (∀ (i : Nat) (it : ChannelImportStatus), s[i]? = some it → it.imported = true →
        (applyEngine dupClient D s).statuses[i]? = some it)
    ∧ alreadyImportedMsg ∈ (applyEngine dupClient D s).log
    ∧ (applyEngine dupClient D s).statuses = s.map markImported := by
  obtain ⟨h1, h2, h3, h4, h5⟩ := applyFrom_dup D s 0 hsub
  obtain ⟨it0, hit0, himp0⟩ := hsome
  exact ⟨h1, h2, h3,
    fun i it hget himp => applyFrom_preserves_imported dupClient s D 0 i it hget himp,
    h4 it0 hit0 himp0, h5⟩

theorem rerun_idempotent_amended_witness :
    (applyEngine dupClient [chanA, chanB] [⟨chanA, true⟩, ⟨chanB, false⟩]).dest
        = [chanA, chanB]
    ∧ (applyEngine dupClient [chanA, chanB] [⟨chanA, true⟩, ⟨chanB, false⟩]).outcome
        = Outcome.Completed
    ∧ (applyEngine dupClient [chanA, chanB] [⟨chanA, true⟩, ⟨chanB, false⟩]).calls
        = (([⟨chanA, true⟩, ⟨chanB, false⟩] : List ChannelImportStatus).filter
            (fun it => it.imported = false)).map (fun it => it.channel)
    ∧ (∀ (i : Nat) (it : ChannelImportStatus),
        ([⟨chanA, true⟩, ⟨chanB, false⟩] : List ChannelImportStatus)[i]? = some it →
        it.imported = true →
        (applyEngine dupClient [chanA, chanB]
            [⟨chanA, true⟩, ⟨chanB, false⟩]).statuses[i]? = some it)
    ∧ alreadyImportedMsg
        ∈ (applyEngine dupClient [chanA, chanB] [⟨chanA, true⟩, ⟨chanB, false⟩]).log
    ∧ (applyEngine dupClient [chanA, chanB] [⟨chanA, true⟩, ⟨chanB, false⟩]).statuses
        = ([⟨chanA, true⟩, ⟨chanB, false⟩] : List ChannelImportStatus).map markImported :=
  rerun_idempotent_amended [⟨chanA, true⟩, ⟨chanB, false⟩] [chanA, chanB]
    ⟨⟨chanA, true⟩, by decide, rfl⟩ (by decide)

/-!
## Determinism

The loop's `break`/`continue`/fallthrough control flow as a big-step
relation: one constructor per branch of the loop body.  Determinism
of the engine is determinism of this relation.
-/

/-- Big-step execution relation of the apply loop: relates a client
state, a slice index and the remaining items to the run result, with
one constructor per branch of the loop body (skip, success,
duplicate, quota break, other error). -/
inductive ApplyRun {σ : Type} (ins : σ → ChannelRef → σ × InsertResult) :
    σ → Nat → List ChannelImportStatus → RunResult σ → Prop where
  | nil (d : σ) (idx : Nat) :
      ApplyRun ins d idx [] ⟨[], Outcome.Completed, d, [], []⟩
  | skip (d : σ) (idx : Nat) (item : ChannelImportStatus)
      (rest : List ChannelImportStatus) (r : RunResult σ)
      (him : item.imported = true) (hr : ApplyRun ins d (idx + 1) rest r) :
      ApplyRun ins d idx (item :: rest)
        ⟨item :: r.statuses, r.outcome, r.dest, r.calls,
          attemptMsg idx item.channel.title :: alreadyImportedMsg :: r.log⟩
  | success (d d1 : σ) (idx : Nat) (item : ChannelImportStatus)
      (rest : List ChannelImportStatus) (r : RunResult σ)
      (him : item.imported = false)
      (hins : ins d item.channel = (d1, InsertResult.ok))
      (hr : ApplyRun ins d1 (idx + 1) rest r) :
      ApplyRun ins d idx (item :: rest)
        ⟨markImported item :: r.statuses, r.outcome, r.dest, item.channel :: r.calls,
          attemptMsg idx item.channel.title :: subscribedMsg :: r.log⟩
  | duplicate (d d1 : σ) (idx : Nat) (item : ChannelImportStatus)
      (rest : List ChannelImportStatus) (m : String) (r : RunResult σ)
      (him : item.imported = false)
      (hins : ins d item.channel = (d1, InsertResult.err m))
      (hdup : hasSuffix m "subscriptionDuplicate" = true)
      (hr : ApplyRun ins d1 (idx + 1) rest r) :
      ApplyRun ins d idx (item :: rest)
        ⟨markImported item :: r.statuses, r.outcome, r.dest, item.channel :: r.calls,
          attemptMsg idx item.channel.title :: duplicateMsg m :: r.log⟩
  | quota (d d1 : σ) (idx : Nat) (item : ChannelImportStatus)
      (rest : List ChannelImportStatus) (m : String)
      (him : item.imported = false)
      (hins : ins d item.channel = (d1, InsertResult.err m))
      (hdup : hasSuffix m "subscriptionDuplicate" = false)
      (hq : hasSuffix m "quotaExceeded" = true) :
      ApplyRun ins d idx (item :: rest)
        ⟨item :: rest, Outcome.HaltedOnQuota, d1, [item.channel],
          [attemptMsg idx item.channel.title, quotaMsg]⟩
  | other (d d1 : σ) (idx : Nat) (item : ChannelImportStatus)
      (rest : List ChannelImportStatus) (m : String) (r : RunResult σ)
      (him : item.imported = false)
      (hins : ins d item.channel = (d1, InsertResult.err m))
      (hdup : hasSuffix m "subscriptionDuplicate" = false)
      (hq : hasSuffix m "quotaExceeded" = false)
      (hr : ApplyRun ins d1 (idx + 1) rest r) :
      ApplyRun ins d idx (item :: rest)
        ⟨item :: r.statuses, r.outcome, r.dest, item.channel :: r.calls,
          attemptMsg idx item.channel.title :: otherErrMsg m :: r.log⟩

/-- C10: the engine is deterministic — from one starting state, plan
and destination-response behavior, any two executions of the loop
produce the same final statuses, outcome, destination state, calls
and output. -/
theorem apply_engine_deterministic {σ : Type} (ins : σ → ChannelRef → σ × InsertResult)
    (d : σ) (idx : Nat) (l : List ChannelImportStatus) (r1 r2 : RunResult σ)
    (h1 : ApplyRun ins d idx l r1) (h2 : ApplyRun ins d idx l r2) : r1 = r2 := by
  induction h1 generalizing r2 with
  | nil d idx =>
    cases h2
    rfl
  | skip d idx item rest r him hr ih =>
    cases h2 with
    | skip _ _ _ _ r' him' hr' => rw [ih r' hr']
    | success _ _ _ _ _ r' him' hins' hr' => rw [him] at him'; exact Bool.noConfusion him'
    | duplicate _ _ _ _ _ _ r' him' hins' hdup' hr' => rw [him] at him'; exact Bool.noConfusion him'
    | quota _ _ _ _ _ _ him' hins' hdup' hq' => rw [him] at him'; exact Bool.noConfusion him'
    | other _ _ _ _ _ _ r' him' hins' hdup' hq' hr' => rw [him] at him'; exact Bool.noConfusion him'
  | success d d1 idx item rest r him hins hr ih =>
    cases h2 with
    | skip _ _ _ _ r' him' hr' => rw [him] at him'; exact Bool.noConfusion him'
    | success _ d1' _ _ _ r' him' hins' hr' =>
      rw [hins] at hins'
      obtain ⟨hd, -⟩ := Prod.mk.injEq .. ▸ hins'
      subst hd
      rw [ih r' hr']
    | duplicate _ d1' _ _ _ m' r' him' hins' hdup' hr' =>
      rw [hins] at hins'
      exact absurd (congrArg Prod.snd hins') (by simp)
    | quota _ d1' _ _ _ m' him' hins' hdup' hq' =>
      rw [hins] at hins'
      exact absurd (congrArg Prod.snd hins') (by simp)
    | other _ d1' _ _ _ m' r' him' hins' hdup' hq' hr' =>
      rw [hins] at hins'
      exact absurd (congrArg Prod.snd hins') (by simp)
  | duplicate d d1 idx item rest m r him hins hdup hr ih =>
    cases h2 with
    | skip _ _ _ _ r' him' hr' => rw [him] at him'; exact Bool.noConfusion him'
    | success _ d1' _ _ _ r' him' hins' hr' =>
      rw [hins] at hins'
      exact absurd (congrArg Prod.snd hins') (by simp)
    | duplicate _ d1' _ _ _ m' r' him' hins' hdup' hr' =>
      rw [hins] at hins'
      have hm : m' = m := by
        have := congrArg Prod.snd hins'
        simpa using this.symm
      subst hm
      have hd : d1' = d1 := by
        have := congrArg Prod.fst hins'
        simpa using this.symm
      subst hd
      rw [ih r' hr']
    | quota _ d1' _ _ _ m' him' hins' hdup' hq' =>
      rw [hins] at hins'
      have hm : m' = m := by
        have := congrArg Prod.snd hins'
        simpa using this.symm
      subst hm
      rw [hdup] at hdup'
      exact absurd hdup' (by simp)
    | other _ d1' _ _ _ m' r' him' hins' hdup' hq' hr' =>
      rw [hins] at hins'
      have hm : m' = m := by
        have := congrArg Prod.snd hins'
        simpa using this.symm
      subst hm
      rw [hdup] at hdup'
      exact absurd hdup' (by simp)
  | quota d d1 idx item rest m him hins hdup hq =>
    cases h2 with
    | skip _ _ _ _ r' him' hr' => rw [him] at him'; exact Bool.noConfusion him'
    | success _ d1' _ _ _ r' him' hins' hr' =>
      rw [hins] at hins'
      exact absurd (congrArg Prod.snd hins') (by simp)
    | duplicate _ d1' _ _ _ m' r' him' hins' hdup' hr' =>
      rw [hins] at hins'
      have hm : m' = m := by
        have := congrArg Prod.snd hins'
        simpa using this.symm
      subst hm
      rw [hdup] at hdup'
      exact absurd hdup' (by simp)
    | quota _ d1' _ _ _ m' him' hins' hdup' hq' =>
      rw [hins] at hins'
      have hm : m' = m := by
        have := congrArg Prod.snd hins'
        simpa using this.symm
      subst hm
      have hd : d1' = d1 := by
        have := congrArg Prod.fst hins'
        simpa using this.symm
      subst hd
      rfl
    | other _ d1' _ _ _ m' r' him' hins' hdup' hq' hr' =>
      rw [hins] at hins'
      have hm : m' = m := by
        have := congrArg Prod.snd hins'
        simpa using this.symm
      subst hm
      rw [hq] at hq'
      exact absurd hq' (by simp)
  | other d d1 idx item rest m r him hins hdup hq hr ih =>
    cases h2 with
    | skip _ _ _ _ r' him' hr' => rw [him] at him'; exact Bool.noConfusion him'
    | success _ d1' _ _ _ r' him' hins' hr' =>
      rw [hins] at hins'
      exact absurd (congrArg Prod.snd hins') (by simp)
    | duplicate _ d1' _ _ _ m' r' him' hins' hdup' hr' =>
      rw [hins] at hins'
      have hm : m' = m := by
        have := congrArg Prod.snd hins'
        simpa using this.symm
      subst hm
      rw [hdup] at hdup'
      exact absurd hdup' (by simp)
    | quota _ d1' _ _ _ m' him' hins' hdup' hq' =>
      rw [hins] at hins'
      have hm : m' = m := by
        have := congrArg Prod.snd hins'
        simpa using this.symm
      subst hm
      rw [hq] at hq'
      exact absurd hq' (by simp)
    | other _ d1' _ _ _ m' r' him' hins' hdup' hq' hr' =>
      rw [hins] at hins'
      have hm : m' = m := by
        have := congrArg Prod.snd hins'
        simpa using this.symm
      subst hm
      have hd : d1' = d1 := by
        have := congrArg Prod.fst hins'
        simpa using this.symm
      subst hd
      rw [ih r' hr']

theorem apply_engine_deterministic_witness :
    (⟨[⟨chanA, true⟩], Outcome.Completed, 0, [],
        [attemptMsg 0 chanA.title, alreadyImportedMsg]⟩ : RunResult Nat)
      = ⟨[⟨chanA, true⟩], Outcome.Completed, 0, [],
        [attemptMsg 0 chanA.title, alreadyImportedMsg]⟩ :=
  apply_engine_deterministic okClient 0 0 [⟨chanA, true⟩] _ _
    (ApplyRun.skip 0 0 ⟨chanA, true⟩ [] ⟨[], Outcome.Completed, 0, [], []⟩ rfl
      (ApplyRun.nil 0 1))
    (ApplyRun.skip 0 0 ⟨chanA, true⟩ [] ⟨[], Outcome.Completed, 0, [], []⟩ rfl
      (ApplyRun.nil 0 1))
